import Mathlib

/-!
Verification of the `clear-spotify-theme` audio visualizer daemon
(`vis-capture`): the FFT post-processing stage of
`src/native/common/fft.h`, the bin-cutoff construction of
`initProcessor`, the WebSocket handshake helpers of
`src/native/common/ws_server.h`, and the command handler plus exit
codes of the Linux `main.cpp`.

Float32 arithmetic is modelled as exact rational arithmetic; machine
integers are modelled as `ℤ`/`ℕ` (all values involved are far from
overflow).  The FFT itself and the transcendental parts (Hann window,
`powf`/`log10f` boundary frequencies, `sqrtf`) are abstracted: the
smoothing/gravity/sensitivity stage is analyzed for arbitrary
nonnegative raw bar vectors (the source computes
`rawBars[b] = sqrtf(norm) * g_eq[b] * g_sens`, a product of
nonnegative factors), and the cutoff pass is analyzed for an arbitrary
initial rounded-frequency table (the source applies `max(1, …)` to
each entry, which is part of the model).
-/

set_option allowUnsafeReducibility true in
attribute [semireducible] Rat.add Rat.mul Rat.sub Rat.inv Rat.div Rat.ofScientific Rat.neg

namespace ClearVis

/-! ### Tuning constants of `fft.h` (lines 23–53) -/

/-- EMA weight kept on the old value when a bar rises (`SMOOTH_ATTACK`). -/
def SMOOTH_ATTACK : ℚ := 0.4

/-- EMA weight kept on the old value when a bar falls (`SMOOTH_DECAY`). -/
def SMOOTH_DECAY : ℚ := 0.85

/-- Gravity acceleration per frame (`GRAVITY`). -/
def GRAVITY : ℚ := 0.004

/-- Raw-PCM peak level below which a frame counts as silence (`SILENCE_THRESHOLD`). -/
def SILENCE_THRESHOLD : ℚ := 0.0001

/-- Initial auto-sensitivity (`SENS_INIT`). -/
def SENS_INIT : ℚ := 1.0

/-- Multiplier applied to `sens` on overshoot (`SENS_ATTACK`). -/
def SENS_ATTACK : ℚ := 0.85

/-- Multiplier applied to `sens` on non-silent frames (`SENS_RELEASE`). -/
def SENS_RELEASE : ℚ := 1.002

/-- Fast initial ramp multiplier (`SENS_INIT_BOOST`). -/
def SENS_INIT_BOOST : ℚ := 1.1

/-- Cap at which the fast initial ramp stops (`SENS_INIT_CAP`). -/
def SENS_INIT_CAP : ℚ := 5.0

/-- Lower clamp for `sens` (`SENS_MIN`). -/
def SENS_MIN : ℚ := 0.02

/-- Upper clamp for `sens` (`SENS_MAX`). -/
def SENS_MAX : ℚ := 5.0

/-- FFT length (`FFT_SIZE` in protocol.h). -/
def FFT_SIZE : ℕ := 4096

/-- Default bar count (`BAR_COUNT` in protocol.h). -/
def BAR_COUNT : ℕ := 72

/-! ### Processor state (`fft.h` lines 93–105)

The per-bar arrays `g_mem`, `g_peak`, `g_fall` are modelled as lists
of rationals; `g_sens` and `g_sensInit` as a rational and a boolean. -/

/-- Mutable processor state of `fft.h`: smoothing memory, gravity peak
tracker, gravity fall velocity, auto-sensitivity and the fast-ramp flag. -/
structure ProcState where
  mem : List ℚ
  peak : List ℚ
  fall : List ℚ
  sens : ℚ
  sensInit : Bool
deriving DecidableEq, Repr

/-- State produced by `initProcessor` (fft.h lines 138–145): all per-bar
arrays zeroed, `sens = SENS_INIT`, fast ramp active. -/
def initState (n : ℕ) : ProcState :=
  ⟨List.replicate n 0, List.replicate n 0, List.replicate n 0, SENS_INIT, true⟩

/-! ### One frame of the post-FFT stage (`processFrame`, fft.h lines 185–250) -/

/-- Asymmetric EMA smoothing of one bar (fft.h lines 210–214):
`mem*SMOOTH_ATTACK + raw*(1-SMOOTH_ATTACK)` on rise,
`mem*SMOOTH_DECAY + raw*(1-SMOOTH_DECAY)` on fall. -/
def smoothBar (mem raw : ℚ) : ℚ :=
  if raw > mem then mem * SMOOTH_ATTACK + raw * (1 - SMOOTH_ATTACK)
  else mem * SMOOTH_DECAY + raw * (1 - SMOOTH_DECAY)

/-- Gravity update of one bar (fft.h lines 219–227).  Takes the already
smoothed `mem`, the old peak and fall velocity; returns the new
`(peak, fall)`. -/
def gravityBar (mem peak fall : ℚ) : ℚ × ℚ :=
  if mem ≥ peak then (mem, 0)
  else
    let fall2 := fall + GRAVITY
    let peak2 := peak - fall2
    let peak3 := if peak2 < mem then mem else peak2
    let peak4 := if peak3 < 0 then 0 else peak3
    (peak4, fall2)

/-- Per-bar result of one iteration of the smoothing/gravity loop. -/
structure BarOut where
  mem : ℚ
  peak : ℚ
  fall : ℚ
deriving DecidableEq, Repr

/-- One iteration of the loop body (fft.h lines 204–227) for a single bar. -/
def barStep (mem raw peak fall : ℚ) : BarOut :=
  let m := smoothBar mem raw
  let pf := gravityBar m peak fall
  ⟨m, pf.1, pf.2⟩

/-- The smoothing/gravity loop over all bars (fft.h lines 204–233),
walking the four per-bar arrays in lockstep. -/
def barsLoop : List ℚ → List ℚ → List ℚ → List ℚ → List BarOut
  | m :: ms, r :: rs, p :: ps, f :: fs => barStep m r p f :: barsLoop ms rs ps fs
  | _, _, _, _ => []

/-- Overshoot flag of one frame (fft.h line 230): some gravity peak
exceeds 1 during the loop. -/
def overshootOf (st : ProcState) (raw : List ℚ) : Bool :=
  (barsLoop st.mem raw st.peak st.fall).any fun o => decide (o.peak > 1)

/-- Final clamp of the sensitivity (fft.h line 250):
`sens = max(SENS_MIN, min(SENS_MAX, sens))`. -/
def clampSens (s : ℚ) : ℚ := max SENS_MIN (min SENS_MAX s)

/-- Auto-sensitivity update of one frame (fft.h lines 239–250):
overshoot attacks and clears the ramp; otherwise non-silent frames
release, and while the ramp is active the boost is applied and the
ramp ends once the boosted value exceeds `SENS_INIT_CAP`. -/
def sensStep (sens : ℚ) (sensInit : Bool) (overshoot silence : Bool) : ℚ × Bool :=
  if overshoot then (clampSens (sens * SENS_ATTACK), false)
  else if silence = false then
    let s1 := sens * SENS_RELEASE
    if sensInit then
      let s2 := s1 * SENS_INIT_BOOST
      (clampSens s2, if s2 > SENS_INIT_CAP then false else true)
    else (clampSens s1, sensInit)
  else (clampSens sens, sensInit)

/-- The post-FFT stage of `processFrame` (fft.h lines 185–250) for one
frame: takes the raw bar vector `rawBars` and the frame's peak PCM
level `audioMax`; returns the updated state and the output bars
`bars[b] = min(peak[b], 1)`. -/
def frameStep (st : ProcState) (raw : List ℚ) (audioMax : ℚ) : ProcState × List ℚ :=
  let silence := decide (audioMax < SILENCE_THRESHOLD)
  let outs := barsLoop st.mem raw st.peak st.fall
  let overshoot := overshootOf st raw
  let bars := outs.map fun o => min o.peak 1
  let sb := sensStep st.sens st.sensInit overshoot silence
  (⟨outs.map BarOut.mem, outs.map BarOut.peak, outs.map BarOut.fall, sb.1, sb.2⟩, bars)

/-- Iterate `processFrame` over a history of frames, each given as a
pair of raw bar vector and peak PCM level. -/
def runFrames (st : ProcState) : List (List ℚ × ℚ) → ProcState
  | [] => st
  | i :: is => runFrames (frameStep st i.1 i.2).1 is

/-! ### Bin cutoff construction (`initProcessor`, fft.h lines 112–129)

The initial table entry is `max(1, (int)roundf(f * FFT_SIZE / SAMPLE_RATE))`
for the log-spaced boundary frequency `f` (a `powf`/`log10f`
expression); the rounded bin index is abstracted as an arbitrary
integer-valued function `f : ℕ → ℤ`, with the `max(1, ...)` kept in
the model. -/

/-- Initial `loCut` table entry (fft.h line 118): `max(1, rounded bin index)`. -/
def loCutInit (f : ℕ → ℤ) (i : ℕ) : ℤ := max 1 (f i)

/-- The push-up pass (fft.h lines 121–124): each cutoff is forced to
exceed its (already pushed) predecessor, so each bar keeps at least one
unique FFT bin. -/
def pushCuts (c : ℕ → ℤ) : ℕ → ℤ
  | 0 => c 0
  | i + 1 => if c (i + 1) ≤ pushCuts c i then pushCuts c i + 1 else c (i + 1)

/-- Per-bar lower bin bound `g_binLo[b]` (fft.h line 126). -/
def binLo (f : ℕ → ℤ) (b : ℕ) : ℤ := pushCuts (loCutInit f) b

/-- Per-bar upper bin bound `g_binHi[b]` (fft.h lines 127–128):
`min(max(loCut[b], loCut[b+1] - 1), FFT_SIZE/2 - 1)`. -/
def binHi (f : ℕ → ℤ) (b : ℕ) : ℤ :=
  min (max (pushCuts (loCutInit f) b) (pushCuts (loCutInit f) (b + 1) - 1))
    ((FFT_SIZE : ℤ) / 2 - 1)

/-! ### WebSocket handshake helpers (`ws_server.h` lines 41–101)

Bytes are modelled as natural numbers below 256; 32-bit words as
natural numbers reduced `% 2^32` exactly where the C code's `uint32_t`
arithmetic wraps. -/

/-- Rotate a 32-bit word left by `n` bits: `(x << n) | (x >> (32-n))`. -/
def rotl32 (n x : ℕ) : ℕ := ((x % 2 ^ 32) * 2 ^ n + (x % 2 ^ 32) / 2 ^ (32 - n)) % 2 ^ 32

/-- SHA-1 round function `f` (ws_server.h lines 66–69); `~b` on
`uint32_t` is modelled as xor with `0xFFFFFFFF`. -/
def sha1F (i b c d : ℕ) : ℕ :=
  if i < 20 then (b &&& c) ||| ((b ^^^ 0xFFFFFFFF) &&& d)
  else if i < 40 then b ^^^ c ^^^ d
  else if i < 60 then (b &&& c) ||| (b &&& d) ||| (c &&& d)
  else b ^^^ c ^^^ d

/-- SHA-1 round constant `k` (ws_server.h lines 66–69). -/
def sha1K (i : ℕ) : ℕ :=
  if i < 20 then 0x5A827999
  else if i < 40 then 0x6ED9EBA1
  else if i < 60 then 0x8F1BBCDC
  else 0xCA62C1D6

/-- Message-schedule extension (ws_server.h lines 59–62): words 16–79,
each the 1-bit left rotation of the xor of four earlier words. -/
def sha1Extend (w : Array ℕ) : Array ℕ :=
  (List.range 64).foldl
    (fun w j =>
      let i := j + 16
      w.push (rotl32 1 (w.getD (i - 3) 0 ^^^ w.getD (i - 8) 0 ^^^
        w.getD (i - 14) 0 ^^^ w.getD (i - 16) 0)))
    w

/-- One 512-bit block compression (ws_server.h lines 53–73). -/
def sha1Compress (h : ℕ × ℕ × ℕ × ℕ × ℕ) (block : List ℕ) : ℕ × ℕ × ℕ × ℕ × ℕ :=
  let w := sha1Extend block.toArray
  let s := (List.range 80).foldl
    (fun (s : ℕ × ℕ × ℕ × ℕ × ℕ) i =>
      let (a, b, c, d, e) := s
      let tmp := (rotl32 5 a + sha1F i b c d + e + sha1K i + w.getD i 0) % 2 ^ 32
      (tmp, a, rotl32 30 b, c, d))
    h
  ((h.1 + s.1) % 2 ^ 32, (h.2.1 + s.2.1) % 2 ^ 32, (h.2.2.1 + s.2.2.1) % 2 ^ 32,
    (h.2.2.2.1 + s.2.2.2.1) % 2 ^ 32, (h.2.2.2.2 + s.2.2.2.2) % 2 ^ 32)

/-- SHA-1 padding (ws_server.h lines 46–51): append `0x80`, zeros up to
8 bytes short of a 64-byte boundary, then the bit length big-endian. -/
def sha1Pad (msg : List ℕ) : List ℕ :=
  let len := msg.length
  let ml := len * 8
  let padded := ((len + 8) / 64 + 1) * 64
  msg ++ 0x80 :: List.replicate (padded - len - 9) 0 ++
    (List.range 8).map fun j => ml / 2 ^ ((7 - j) * 8) % 256

/-- Big-endian bytes to 32-bit words (ws_server.h lines 55–58). -/
def bytesToWords : List ℕ → List ℕ
  | b0 :: b1 :: b2 :: b3 :: rest =>
    (b0 * 2 ^ 24 + b1 * 2 ^ 16 + b2 * 2 ^ 8 + b3) :: bytesToWords rest
  | _ => []

/-- The per-block loop of `sha1` (ws_server.h line 53): compress 16
words (one 64-byte block) at a time.  The padded message is always a
whole number of blocks. -/
def sha1Blocks (h : ℕ × ℕ × ℕ × ℕ × ℕ) : List ℕ → ℕ × ℕ × ℕ × ℕ × ℕ
  | w0 :: w1 :: w2 :: w3 :: w4 :: w5 :: w6 :: w7 ::
      w8 :: w9 :: w10 :: w11 :: w12 :: w13 :: w14 :: w15 :: rest =>
    sha1Blocks
      (sha1Compress h [w0, w1, w2, w3, w4, w5, w6, w7, w8, w9, w10, w11, w12, w13, w14, w15])
      rest
  | _ => h

/-- The embedded SHA-1 (`sha1` in ws_server.h): 20-byte digest of a
byte message. -/
def sha1 (msg : List ℕ) : List ℕ :=
  let h := sha1Blocks (0x67452301, 0xEFCDAB89, 0x98BADCFE, 0x10325476, 0xC3D2E1F0)
    (bytesToWords (sha1Pad msg))
  [h.1, h.2.1, h.2.2.1, h.2.2.2.1, h.2.2.2.2].flatMap fun v =>
    [v / 2 ^ 24 % 256, v / 2 ^ 16 % 256, v / 2 ^ 8 % 256, v % 256]

/-- The base64 alphabet (ws_server.h line 88). -/
def b64Table : List Char :=
  "ABCDEFGHIJKLMNOPQRSTUVWXYZabcdefghijklmnopqrstuvwxyz0123456789+/".data

/-- Look up one 6-bit group in the base64 alphabet. -/
def b64Char (n : ℕ) : Char := b64Table.getD n 'A'

/-- The embedded base64 encoder (`base64Encode` in ws_server.h lines
87–101), processing three input bytes per iteration with `=` padding. -/
def base64Encode : List ℕ → List Char
  | [] => []
  | [x] =>
    let n := x * 2 ^ 16
    [b64Char (n / 2 ^ 18 % 64), b64Char (n / 2 ^ 12 % 64), '=', '=']
  | [x, y] =>
    let n := x * 2 ^ 16 + y * 2 ^ 8
    [b64Char (n / 2 ^ 18 % 64), b64Char (n / 2 ^ 12 % 64), b64Char (n / 2 ^ 6 % 64), '=']
  | x :: y :: z :: rest =>
    let n := x * 2 ^ 16 + y * 2 ^ 8 + z
    b64Char (n / 2 ^ 18 % 64) :: b64Char (n / 2 ^ 12 % 64) ::
      b64Char (n / 2 ^ 6 % 64) :: b64Char (n % 64) :: base64Encode rest

/-- Bytes of an ASCII string (the C code reads `c_str()` bytes). -/
def strBytes (s : String) : List ℕ := s.data.map fun c => c.toNat % 256

/-- The `Sec-WebSocket-Accept` value computed by `WsServer::poll`
(ws_server.h lines 193–196): base64 of the SHA-1 of the key
concatenated with the RFC 6455 GUID. -/
def wsAcceptKey (key : String) : String :=
  ⟨base64Encode (sha1 (strBytes (key ++ "258EAFA5-E914-47DA-95CA-C5AB0DC85B11")))⟩

/-- The 101 response sent after the handshake (ws_server.h lines 199–202). -/
def upgradeResponse (key : String) : String :=
  "HTTP/1.1 101 Switching Protocols\r\n" ++
  "Upgrade: websocket\r\n" ++
  "Connection: Upgrade\r\n" ++
  "Sec-WebSocket-Accept: " ++ wsAcceptKey key ++ "\r\n\r\n"

/-! ### Control plane (`main.cpp`, the `ws.onText` handler)

The handler chain of the Linux `main` (source lines 142–178), over the
daemon state it manipulates: the active bar count `g_barCount`, the
frequency ceiling `g_freqMax`, the emission interval `sendIntervalMs`,
the pending-source pair, and the processor state (reset by
`initProcessor()` on successful reconfiguration). -/

/-- A PulseAudio monitor source as enumerated for `GET_SOURCES`. -/
structure SourceInfo where
  name : String
  desc : String
deriving DecidableEq, Repr

/-- Runtime daemon state touched by the `ws.onText` handler. -/
structure DaemonState where
  barCount : ℤ
  freqMax : ℤ
  sendIntervalMs : ℤ
  pendingSource : String
  sourceChangeRequested : Bool
  proc : ProcState
deriving DecidableEq, Repr

/-- Initial daemon state of `main`: 72 bars, 12 kHz ceiling, 33 ms send
interval (30 fps), no pending source change, freshly initialized
processor. -/
def initDaemon : DaemonState := ⟨72, 12000, 33, "", false, initState 72⟩

/-- Prefix test on character lists (models `std::string::rfind(s, 0) == 0`). -/
def hasPrefixC : List Char → List Char → Bool
  | [], _ => true
  | _ :: _, [] => false
  | p :: ps, c :: cs => p == c && hasPrefixC ps cs

/-- String prefix test used by the handler dispatch. -/
def startsWithS (s p : String) : Bool := hasPrefixC p.data s.data

/-- Drop the first `n` characters (models `std::string::substr(n)`). -/
def dropS (s : String) (n : ℕ) : String := ⟨s.data.drop n⟩

/-- Is `c` one of the six C whitespace characters honored by `atoi`. -/
def isSpaceC (c : Char) : Bool :=
  c == ' ' || c == '\t' || c == '\n' || c == '\x0b' || c == '\x0c' || c == '\r'

/-- Digit-accumulation loop of `atoi`. -/
def atoiDigits : ℤ → List Char → ℤ
  | acc, c :: cs => if c.isDigit then atoiDigits (acc * 10 + ((c.toNat : ℤ) - 48)) cs else acc
  | acc, [] => acc

/-- Optional sign handling of `atoi`. -/
def atoiSigned : List Char → ℤ
  | '-' :: cs => - atoiDigits 0 cs
  | '+' :: cs => atoiDigits 0 cs
  | cs => atoiDigits 0 cs

/-- Model of `std::atoi`: skip leading whitespace, read an optional
sign, then a digit run (0 if there are no digits). -/
def atoiS (s : String) : ℤ := atoiSigned (s.data.dropWhile isSpaceC)

/-- Escape `"` as `\"` (main.cpp lines 100–109). -/
def escapeQuotes (s : String) : String :=
  ⟨s.data.flatMap fun c => if c == '"' then ['\\', '"'] else [c]⟩

/-- JSON source list built by `buildSourcesJson` (main.cpp lines 96–114). -/
def buildSourcesJson (sources : List SourceInfo) : String :=
  "\x7b\"sources\":[" ++
    String.intercalate ","
      (sources.map fun s =>
        "\x7b\"name\":\"" ++ escapeQuotes s.name ++ "\",\"desc\":\"" ++
          escapeQuotes s.desc ++ "\"\x7d") ++
    "]\x7d"

/-- The `ws.onText` handler of the Linux `main` (source lines 142–178):
dispatches on the five command shapes and returns the updated daemon
state together with the optional text reply.  `enumerateSources()` is
abstracted as the `sources` argument.  In-set `SET_FREQ_MAX` and
`SET_BAR_COUNT` call `initProcessor()`, resetting the processor state. -/
def handleText (sources : List SourceInfo) (msg : String) (st : DaemonState) :
    DaemonState × Option String :=
  if msg = "GET_SOURCES" then
    (st, some (buildSourcesJson sources))
  else if startsWithS msg "SET_SOURCE:" then
    ({ st with pendingSource := dropS msg 11, sourceChangeRequested := true }, none)
  else if startsWithS msg "SET_FPS:" then
    let fps := atoiS (dropS msg 8)
    if fps = 24 ∨ fps = 30 ∨ fps = 60 then
      ({ st with sendIntervalMs := 1000 / fps },
        some ("\x7b\"fpsChanged\":" ++ toString fps ++ "\x7d"))
    else (st, none)
  else if startsWithS msg "SET_FREQ_MAX:" then
    let freq := atoiS (dropS msg 13)
    if freq = 10000 ∨ freq = 12000 ∨ freq = 14000 ∨ freq = 16000 ∨ freq = 18000 then
      ({ st with freqMax := freq, proc := initState st.barCount.toNat },
        some ("\x7b\"freqMaxChanged\":" ++ toString freq ++ "\x7d"))
    else (st, none)
  else if startsWithS msg "SET_BAR_COUNT:" then
    let count := atoiS (dropS msg 14)
    if count = 8 ∨ count = 16 ∨ count = 24 ∨ count = 36 ∨ count = 72 ∨
        count = 100 ∨ count = 144 then
      ({ st with barCount := count, proc := initState count.toNat },
        some ("\x7b\"barCountChanged\":" ++ toString count ++ "\x7d"))
    else (st, none)
  else (st, none)

/-- Payload size in bytes of one emitted binary bar frame
(main.cpp line 278): `g_barCount * sizeof(float)`. -/
def frameBytes (st : DaemonState) : ℤ := st.barCount * 4

/-! ### Process exit codes (`main.cpp` lines 116–287) -/

/-- How the main loop of `main` ends: the signal handler cleared
`g_running`, or `pa_simple_read` returned an error and the loop `break`s. -/
inductive LoopExit where
  | signalled : LoopExit
  | readError : LoopExit
deriving DecidableEq, Repr

/-- Exit code of the Linux `main`: 1 when `ws.start` fails (lines
127–130), 1 when the initial PulseAudio connect fails (lines 211–214);
otherwise the main loop runs until a signal clears `g_running` or
`pa_simple_read` fails (lines 266–270, which `break`s), and `main`
falls through to `return 0` (line 286). -/
def mainExit (wsStartOk paConnectOk : Bool) (ex : LoopExit) : ℤ :=
  if wsStartOk = false then 1
  else if paConnectOk = false then 1
  else
    match ex with
    | .signalled => 0
    | .readError => 0

/-! ## Helper lemmas -/

/-- The EMA smoothing output is nonnegative on nonnegative inputs. -/
theorem smoothBar_nonneg {m r : ℚ} (hm : 0 ≤ m) (hr : 0 ≤ r) : 0 ≤ smoothBar m r := by
  simp only [smoothBar, SMOOTH_ATTACK, SMOOTH_DECAY]
  split <;> nlinarith

/-- Each loop iteration yields nonnegative smoothing memory and peak,
provided the incoming memories and raws are nonnegative. -/
theorem barsLoop_nonneg (ms rs ps fs : List ℚ)
    (hm : ∀ m ∈ ms, 0 ≤ m) (hr : ∀ r ∈ rs, 0 ≤ r) :
    ∀ o ∈ barsLoop ms rs ps fs, 0 ≤ o.mem ∧ 0 ≤ o.peak := by
  induction ms, rs, ps, fs using barsLoop.induct with
  | case1 m ms r rs p ps f fs ih =>
    intro o ho
    simp only [barsLoop, List.mem_cons] at ho
    have hm0 : 0 ≤ m := hm m (by simp)
    have hr0 : 0 ≤ r := hr r (by simp)
    have hmem : 0 ≤ (barStep m r p f).mem := by
      simpa [barStep] using smoothBar_nonneg hm0 hr0
    rcases ho with rfl | ho
    · refine ⟨hmem, ?_⟩
      simp only [barStep] at hmem ⊢
      simp only [gravityBar]
      split
      · simpa using hmem
      · dsimp only
        split
        · split
          · linarith
          · linarith
        · split
          · linarith
          · linarith
    · exact ih (fun x hx => hm x (by simp [hx])) (fun x hx => hr x (by simp [hx])) o ho
  | case2 x y z w h =>
    intro o ho
    rw [barsLoop] at ho
    · simp at ho
    · exact h

/-- `processFrame` preserves nonnegativity of the smoothing memory. -/
theorem frameStep_mem_nonneg (st : ProcState) (raw : List ℚ) (amax : ℚ)
    (hm : ∀ m ∈ st.mem, 0 ≤ m) (hr : ∀ r ∈ raw, 0 ≤ r) :
    ∀ m ∈ ((frameStep st raw amax).1).mem, 0 ≤ m := by
  intro m hmem
  simp only [frameStep, List.mem_map] at hmem
  obtain ⟨o, ho, rfl⟩ := hmem
  exact (barsLoop_nonneg _ _ _ _ hm hr o ho).1

/-- Every state reachable from a nonnegative-memory state through
nonnegative raw inputs has nonnegative smoothing memory. -/
theorem runFrames_mem_nonneg (hist : List (List ℚ × ℚ)) (st : ProcState)
    (hm : ∀ m ∈ st.mem, 0 ≤ m) (hh : ∀ p ∈ hist, ∀ r ∈ p.1, 0 ≤ r) :
    ∀ m ∈ (runFrames st hist).mem, 0 ≤ m := by
  induction hist generalizing st with
  | nil => simpa [runFrames] using hm
  | cons p ps ih =>
    simp only [runFrames]
    exact ih _ (frameStep_mem_nonneg _ _ _ hm (hh p (by simp)))
      fun q hq => hh q (by simp [hq])

/-- The memory table of `initState` is all zeros, hence nonnegative. -/
theorem initState_mem_nonneg (n : ℕ) : ∀ m ∈ (initState n).mem, 0 ≤ m := by
  intro m hm
  have h : m = 0 := List.eq_of_mem_replicate (by simpa [initState] using hm)
  simp [h]

/-- The mem table computed by the loop is the pointwise EMA of the old
mem table and the raw vector. -/
theorem barsLoop_mem_eq (ms rs ps fs : List ℚ)
    (hp : ps.length = ms.length) (hf : fs.length = ms.length) (hr : rs.length = ms.length) :
    (barsLoop ms rs ps fs).map BarOut.mem = List.zipWith smoothBar ms rs := by
  induction ms generalizing rs ps fs with
  | nil =>
    cases rs with
    | nil => rfl
    | cons r rs => simp at hr
  | cons m ms ih =>
    cases rs with
    | nil => simp at hr
    | cons r rs =>
      cases ps with
      | nil => simp at hp
      | cons p ps =>
        cases fs with
        | nil => simp at hf
        | cons f fs =>
          simp only [barsLoop, List.map_cons, List.zipWith_cons_cons]
          congr 1
          exact ih rs ps fs (by simpa using hp) (by simpa using hf) (by simpa using hr)

/-- `clampSens` lands in `[SENS_MIN, SENS_MAX]`. -/
theorem clampSens_bounds (s : ℚ) : SENS_MIN ≤ clampSens s ∧ clampSens s ≤ SENS_MAX :=
  ⟨le_max_left _ _, max_le (by norm_num [SENS_MIN, SENS_MAX]) (min_le_left _ _)⟩

/-- `sensStep` always returns a clamped value. -/
theorem sensStep_fst_clamped (s : ℚ) (i ov sil : Bool) :
    ∃ x, (sensStep s i ov sil).1 = clampSens x := by
  unfold sensStep
  split
  · exact ⟨_, rfl⟩
  · split
    · dsimp only
      split
      · exact ⟨_, rfl⟩
      · exact ⟨_, rfl⟩
    · exact ⟨_, rfl⟩

/-! ## Claims -/

/-- C1: after every call to `processFrame`, for every sequence of
previously processed frames and every input frame, every output bar
value lies in `[0, 1]`.  Frames are given by their raw bar vectors
(products of a magnitude square root, the EQ weight and `sens`, hence
nonnegative) and peak PCM levels. -/
theorem bars_in_unit_range (n : ℕ) (hist : List (List ℚ × ℚ)) (raw : List ℚ) (amax : ℚ)
    (hh : ∀ p ∈ hist, ∀ r ∈ p.1, 0 ≤ r) (hr : ∀ r ∈ raw, 0 ≤ r) :
    ∀ q ∈ (frameStep (runFrames (initState n) hist) raw amax).2, 0 ≤ q ∧ q ≤ 1 := by
  intro q hq
  have hm : ∀ m ∈ (runFrames (initState n) hist).mem, 0 ≤ m :=
    runFrames_mem_nonneg hist _ (initState_mem_nonneg n) hh
  simp only [frameStep, List.mem_map] at hq
  obtain ⟨o, ho, rfl⟩ := hq
  have hpk := (barsLoop_nonneg _ _ _ _ hm hr o ho).2
  exact ⟨le_min hpk (by norm_num), min_le_right _ _⟩

/-- Witness for `bars_in_unit_range` at a concrete two-frame history. -/
theorem bars_in_unit_range_witness :
    (0 : ℚ) ≤ ((frameStep (runFrames (initState 1) [([1/2], 1)]) [2] 1).2).getD 0 0 ∧
      ((frameStep (runFrames (initState 1) [([1/2], 1)]) [2] 1).2).getD 0 0 ≤ 1 :=
  bars_in_unit_range 1 [([1/2], 1)] [2] 1 (by decide) (by decide) _ (by decide)

/-- C2 counterexample: the smoothing step is not an instant attack with
`0.77` decay.  With `mem = 0` and `raw = 1` the code yields `3/5`, not
the claimed `raw = 1`; with `mem = 1` and `raw = 0` it yields `17/20`,
not the claimed `0.77`. -/
theorem smoothing_claim_counterexample :
    ((frameStep ⟨[0], [0], [0], 1, true⟩ [1] 1).1).mem = [3/5] ∧ (3/5 : ℚ) ≠ 1 ∧
      ((frameStep ⟨[1], [1], [0], 1, true⟩ [0] 1).1).mem = [17/20] ∧
      (17/20 : ℚ) ≠ 0.77 * 1 := by
  refine ⟨by decide, by decide, by decide, by decide⟩

/-- C2 (amended): the smoothing step of `processFrame` is an asymmetric
EMA: if `raw[b] > mem[b]` then `mem[b] ← 0.4·mem[b] + 0.6·raw[b]`,
otherwise `mem[b] ← 0.85·mem[b] + 0.15·raw[b]`. -/
theorem smoothing_step_ema (st : ProcState) (raw : List ℚ) (amax : ℚ)
    (hp : st.peak.length = st.mem.length) (hf : st.fall.length = st.mem.length)
    (hr : raw.length = st.mem.length) :
    ((frameStep st raw amax).1).mem =
      List.zipWith (fun m r => if r > m then m * 0.4 + r * 0.6 else m * 0.85 + r * 0.15)
        st.mem raw := by
  have h : ((frameStep st raw amax).1).mem =
      (barsLoop st.mem raw st.peak st.fall).map BarOut.mem := rfl
  rw [h, barsLoop_mem_eq st.mem raw st.peak st.fall hp hf hr]
  have hfun : smoothBar = fun m r : ℚ =>
      if r > m then m * 0.4 + r * 0.6 else m * 0.85 + r * 0.15 := by
    funext m r
    simp only [smoothBar, SMOOTH_ATTACK, SMOOTH_DECAY]
    split <;> norm_num
  rw [hfun]

/-- Witness for `smoothing_step_ema` at a single rising bar. -/
theorem smoothing_step_ema_witness :
    ((frameStep ⟨[0], [0], [0], 1, true⟩ [1] 1).1).mem =
      List.zipWith (fun m r : ℚ => if r > m then m * 0.4 + r * 0.6 else m * 0.85 + r * 0.15)
        [0] [1] :=
  smoothing_step_ema ⟨[0], [0], [0], 1, true⟩ [1] 1 (by decide) (by decide) (by decide)

/-- C6 counterexample: the fast-ramp boost is gated by the 1e-4 silence
threshold and capped at 5.0, not gated by `audio_max > 0.005` or capped
at 2.0.  With `audio_max = 1/1000 ≤ 0.005` the boost is still applied
(`sens` becomes `1.002·1.1 = 5511/5000` instead of the unboosted
`1.002`), and with `sens = 2` the boosted value `2.2044` exceeds 2.0
yet `init_mode` stays set. -/
theorem sens_ramp_gate_counterexample :
    ((frameStep ⟨[0], [0], [0], 1, true⟩ [0] (1/1000)).1).sens = 5511/5000 ∧
      ¬ ((1 : ℚ)/1000 > 5/1000) ∧
      (5511/5000 : ℚ) ≠ clampSens (1 * 1.002) ∧
      ((frameStep ⟨[0], [0], [0], 2, true⟩ [0] 1).1).sensInit = true ∧
      (2 : ℚ) * 1.002 * 1.1 > 2 := by
  refine ⟨by decide, by decide, by decide, by decide, by decide⟩

/-- C6 (amended): in a silent frame (`audio_max < 1e-4`) with no
overshoot, `sens` does not increase (given the invariant
`sens ≥ SENS_MIN`); and in a non-silent no-overshoot frame with
`init_mode` set, the update is `clamp(sens·1.002·1.1)` — the 1.1×
boost is applied whenever the frame is not silent (threshold 1e-4, not
0.005) — with `init_mode` clearing exactly when `sens·1.002·1.1`
exceeds 5.0 (not 2.0). -/
theorem sens_silence_and_ramp (st : ProcState) (raw : List ℚ) (amax : ℚ) :
    (amax < SILENCE_THRESHOLD → overshootOf st raw = false → SENS_MIN ≤ st.sens →
      ((frameStep st raw amax).1).sens ≤ st.sens) ∧
    (¬ amax < SILENCE_THRESHOLD → overshootOf st raw = false → st.sensInit = true →
      ((frameStep st raw amax).1).sens = clampSens (st.sens * 1.002 * 1.1) ∧
        (((frameStep st raw amax).1).sensInit = false ↔ st.sens * 1.002 * 1.1 > 5)) := by
  constructor
  · intro hsil hov hmin
    have h : ((frameStep st raw amax).1).sens =
        (sensStep st.sens st.sensInit (overshootOf st raw)
          (decide (amax < SILENCE_THRESHOLD))).1 := rfl
    rw [h, hov, decide_eq_true hsil]
    simp only [sensStep, Bool.false_eq_true, if_false, Bool.true_eq_false]
    exact max_le hmin (min_le_right _ _)
  · intro hsil hov hinit
    have h1 : ((frameStep st raw amax).1).sens =
        (sensStep st.sens st.sensInit (overshootOf st raw)
          (decide (amax < SILENCE_THRESHOLD))).1 := rfl
    have h2 : ((frameStep st raw amax).1).sensInit =
        (sensStep st.sens st.sensInit (overshootOf st raw)
          (decide (amax < SILENCE_THRESHOLD))).2 := rfl
    rw [h1, h2, hov, hinit, decide_eq_false hsil]
    simp only [sensStep, Bool.false_eq_true, if_false, if_true]
    have hrel : st.sens * SENS_RELEASE * SENS_INIT_BOOST = st.sens * 1.002 * 1.1 := by
      norm_num [SENS_RELEASE, SENS_INIT_BOOST]
    constructor
    · rw [← hrel]
    · rw [← hrel]
      constructor
      · intro hfalse
        by_contra hgt
        simp only [SENS_INIT_CAP] at hfalse
        split at hfalse
        · next hcond => exact hgt (by norm_num [SENS_INIT_CAP] at hcond ⊢; linarith)
        · exact Bool.true_eq_false.mp hfalse
      · intro hgt
        have : st.sens * SENS_RELEASE * SENS_INIT_BOOST > SENS_INIT_CAP := by
          rw [hrel]; norm_num [SENS_INIT_CAP]; linarith
        simp [this]

/-- Witness for `sens_silence_and_ramp` at a silent and a loud frame. -/
theorem sens_silence_and_ramp_witness :
    ((frameStep ⟨[0], [0], [0], 1, true⟩ [0] 0).1).sens ≤ 1 ∧
      (((frameStep ⟨[0], [0], [0], 1, true⟩ [0] 1).1).sens = clampSens (1 * 1.002 * 1.1) ∧
        (((frameStep ⟨[0], [0], [0], 1, true⟩ [0] 1).1).sensInit = false ↔
          (1 : ℚ) * 1.002 * 1.1 > 5)) :=
  ⟨(sens_silence_and_ramp ⟨[0], [0], [0], 1, true⟩ [0] 0).1 (by decide) (by decide) (by decide),
    (sens_silence_and_ramp ⟨[0], [0], [0], 1, true⟩ [0] 1).2 (by decide) (by decide) (by decide)⟩

/-- C7: after every call to `processFrame`, the auto-sensitivity scalar
satisfies `0.02 ≤ sens ≤ 20` (the code in fact clamps to
`[0.02, 5] ⊆ [0.02, 20]`). -/
theorem sens_clamped_range (st : ProcState) (raw : List ℚ) (amax : ℚ) :
    (0.02 : ℚ) ≤ ((frameStep st raw amax).1).sens ∧
      ((frameStep st raw amax).1).sens ≤ 20 := by
  have h : ((frameStep st raw amax).1).sens =
      (sensStep st.sens st.sensInit (overshootOf st raw)
        (decide (amax < SILENCE_THRESHOLD))).1 := rfl
  obtain ⟨x, hx⟩ := sensStep_fst_clamped st.sens st.sensInit (overshootOf st raw)
    (decide (amax < SILENCE_THRESHOLD))
  rw [h, hx]
  obtain ⟨h1, h2⟩ := clampSens_bounds x
  norm_num [SENS_MIN, SENS_MAX] at h1 h2
  exact ⟨h1, h2.trans (by norm_num)⟩

/-- C3: for every `k` in `{8, 16, 24, 36, 72, 100, 144}`, the handler
acknowledges `SET_BAR_COUNT:k` with the text frame
`{"barCountChanged":k}`, sets the active bar count to `k`, and
subsequent binary frames carry exactly `k × 4` bytes — 64 bytes for
`k = 16`. -/
theorem setBarCount_ack_and_frame_size (sources : List SourceInfo) (st : DaemonState)
    (k : ℤ) (hk : k = 8 ∨ k = 16 ∨ k = 24 ∨ k = 36 ∨ k = 72 ∨ k = 100 ∨ k = 144) :
    (handleText sources ("SET_BAR_COUNT:" ++ toString k) st).2 =
        some ("\x7b\"barCountChanged\":" ++ toString k ++ "\x7d") ∧
      (handleText sources ("SET_BAR_COUNT:" ++ toString k) st).1.barCount = k ∧
      frameBytes (handleText sources ("SET_BAR_COUNT:" ++ toString k) st).1 = k * 4 ∧
      (k = 16 → frameBytes (handleText sources ("SET_BAR_COUNT:" ++ toString k) st).1 = 64) := by
  rcases hk with rfl | rfl | rfl | rfl | rfl | rfl | rfl <;>
    refine ⟨?_, ?_, ?_, ?_⟩ <;>
      simp +decide [handleText, atoiS, dropS, frameBytes]

/-- Witness for `setBarCount_ack_and_frame_size` at `k = 16`. -/
theorem setBarCount_ack_and_frame_size_witness :
    (handleText [] ("SET_BAR_COUNT:" ++ toString (16 : ℤ)) initDaemon).2 =
        some ("\x7b\"barCountChanged\":" ++ toString (16 : ℤ) ++ "\x7d") ∧
      (handleText [] ("SET_BAR_COUNT:" ++ toString (16 : ℤ)) initDaemon).1.barCount = 16 ∧
      frameBytes (handleText [] ("SET_BAR_COUNT:" ++ toString (16 : ℤ)) initDaemon).1 = 16 * 4 ∧
      frameBytes (handleText [] ("SET_BAR_COUNT:" ++ toString (16 : ℤ)) initDaemon).1 = 64 :=
  ⟨(setBarCount_ack_and_frame_size [] initDaemon 16 (by decide)).1,
    (setBarCount_ack_and_frame_size [] initDaemon 16 (by decide)).2.1,
    (setBarCount_ack_and_frame_size [] initDaemon 16 (by decide)).2.2.1,
    (setBarCount_ack_and_frame_size [] initDaemon 16 (by decide)).2.2.2 rfl⟩

set_option maxRecDepth 4000 in
/-- C4: for the RFC 6455 sample key, the accept value computed by the
embedded `sha1` and `base64Encode` is exactly
`s3pPLMBiTxaQ9kYGzzhZRbK+xOo=`, and the 101 response built by
`WsServer::poll` carries that `Sec-WebSocket-Accept` header. -/
theorem handshake_accept_value :
    wsAcceptKey "dGhlIHNhbXBsZSBub25jZQ==" = "s3pPLMBiTxaQ9kYGzzhZRbK+xOo=" ∧
      upgradeResponse "dGhlIHNhbXBsZSBub25jZQ==" =
        "HTTP/1.1 101 Switching Protocols\r\n" ++
        "Upgrade: websocket\r\n" ++
        "Connection: Upgrade\r\n" ++
        "Sec-WebSocket-Accept: s3pPLMBiTxaQ9kYGzzhZRbK+xOo=\r\n\r\n" := by
  have h1 : sha1 (strBytes ("dGhlIHNhbXBsZSBub25jZQ==" ++
      "258EAFA5-E914-47DA-95CA-C5AB0DC85B11")) =
      [0xb3, 0x7a, 0x4f, 0x2c, 0xc0, 0x62, 0x4f, 0x16, 0x90, 0xf6, 0x46, 0x06,
        0xcf, 0x38, 0x59, 0x45, 0xb2, 0xbe, 0xc4, 0xea] := by decide
  have h2 : wsAcceptKey "dGhlIHNhbXBsZSBub25jZQ==" = "s3pPLMBiTxaQ9kYGzzhZRbK+xOo=" := by
    simp only [wsAcceptKey, h1]
    decide
  refine ⟨h2, ?_⟩
  simp only [upgradeResponse, h2]
  decide

/-- C5: a `SET_FPS`, `SET_FREQ_MAX` or `SET_BAR_COUNT` command whose
value is outside its allowed set produces no reply and leaves the whole
daemon state — processor state (including `sens`), bar count, frequency
ceiling, emission interval, pending source — unchanged. -/
theorem out_of_set_commands_noop (sources : List SourceInfo) (st : DaemonState)
    (suffix : String) :
    (¬ (atoiS suffix = 24 ∨ atoiS suffix = 30 ∨ atoiS suffix = 60) →
      handleText sources ("SET_FPS:" ++ suffix) st = (st, none)) ∧
    (¬ (atoiS suffix = 10000 ∨ atoiS suffix = 12000 ∨ atoiS suffix = 14000 ∨
        atoiS suffix = 16000 ∨ atoiS suffix = 18000) →
      handleText sources ("SET_FREQ_MAX:" ++ suffix) st = (st, none)) ∧
    (¬ (atoiS suffix = 8 ∨ atoiS suffix = 16 ∨ atoiS suffix = 24 ∨ atoiS suffix = 36 ∨
        atoiS suffix = 72 ∨ atoiS suffix = 100 ∨ atoiS suffix = 144) →
      handleText sources ("SET_BAR_COUNT:" ++ suffix) st = (st, none)) := by
  refine ⟨?_, ?_, ?_⟩ <;> intro h
  · have hne : ("SET_FPS:" ++ suffix) ≠ "GET_SOURCES" := by
      intro hh
      have := congrArg String.data hh
      simp [String.data_append] at this
    simp [handleText, hne, startsWithS, hasPrefixC, String.data_append, dropS, h]
  · have hne : ("SET_FREQ_MAX:" ++ suffix) ≠ "GET_SOURCES" := by
      intro hh
      have := congrArg String.data hh
      simp [String.data_append] at this
    simp [handleText, hne, startsWithS, hasPrefixC, String.data_append, dropS, h]
  · have hne : ("SET_BAR_COUNT:" ++ suffix) ≠ "GET_SOURCES" := by
      intro hh
      have := congrArg String.data hh
      simp [String.data_append] at this
    simp [handleText, hne, startsWithS, hasPrefixC, String.data_append, dropS, h]

/-- Witness for `out_of_set_commands_noop` at the out-of-set value 50. -/
theorem out_of_set_commands_noop_witness :
    handleText [] ("SET_FPS:" ++ "50") initDaemon = (initDaemon, none) ∧
      handleText [] ("SET_FREQ_MAX:" ++ "50") initDaemon = (initDaemon, none) ∧
      handleText [] ("SET_BAR_COUNT:" ++ "50") initDaemon = (initDaemon, none) :=
  ⟨(out_of_set_commands_noop [] initDaemon "50").1 (by decide),
    (out_of_set_commands_noop [] initDaemon "50").2.1 (by decide),
    (out_of_set_commands_noop [] initDaemon "50").2.2 (by decide)⟩

/-- C8 counterexample: a `pa_simple_read` failure in the main loop
makes `main` `break` out of the loop and return 0, not 1. -/
theorem read_error_exit_counterexample :
    mainExit true true LoopExit.readError = 0 ∧ (0 : ℤ) ≠ 1 := by decide

/-- C8 (amended): the process exits 1 on WebSocket bind failure and on
failure to open the initial audio source, and exits 0 both on
signal-triggered shutdown and when `pa_simple_read` fails mid-loop. -/
theorem exit_codes (pa : Bool) (ex : LoopExit) :
    mainExit false pa ex = 1 ∧ mainExit true false ex = 1 ∧
      mainExit true true LoopExit.signalled = 0 ∧ mainExit true true ex = 0 := by
  cases pa <;> cases ex <;> decide

/-- C9: for every initial rounded-bin table — hence for every supported
configuration, including `freq_max = 10000` with `bar_count = 144` —
the constructed cutoffs grow strictly monotonically:
`lo[b] ≥ lo[b−1] + 1` for every `b ≥ 1`, and every
`hi[b] ≤ FFT_SIZE/2 − 1`. -/
theorem cutoffs_strictly_monotone (f : ℕ → ℤ) (b : ℕ) (hb : 1 ≤ b) :
    binLo f (b - 1) + 1 ≤ binLo f b ∧
      ∀ b2 : ℕ, binHi f b2 ≤ (FFT_SIZE : ℤ) / 2 - 1 := by
  constructor
  · obtain ⟨i, rfl⟩ : ∃ i, b = i + 1 := ⟨b - 1, by omega⟩
    simp only [binLo, Nat.add_sub_cancel]
    conv_rhs => rw [pushCuts]
    split <;> omega
  · intro b2
    exact min_le_right _ _

/-- Witness for `cutoffs_strictly_monotone` at a constant table. -/
theorem cutoffs_strictly_monotone_witness :
    binLo (fun _ => 1) (1 - 1) + 1 ≤ binLo (fun _ => 1) 1 ∧
      binHi (fun _ => 1) 5 ≤ (FFT_SIZE : ℤ) / 2 - 1 :=
  ⟨(cutoffs_strictly_monotone (fun _ => 1) 1 (by decide)).1,
    (cutoffs_strictly_monotone (fun _ => 1) 1 (by decide)).2 5⟩

/-- The pushed cutoffs always stay at least 1 (the `max(1, …)` floor). -/
theorem pushCuts_ge_one (f : ℕ → ℤ) (i : ℕ) : 1 ≤ pushCuts (loCutInit f) i := by
  induction i with
  | zero => simp [pushCuts, loCutInit]
  | succ i ih =>
    rw [pushCuts]
    split
    · omega
    · simp [loCutInit]

/-- The push-up pass raises a cutoff by at most its index above the
largest initial entry. -/
theorem pushCuts_le_add (c : ℕ → ℤ) (B : ℤ) (i : ℕ) (h : ∀ j, j ≤ i → c j ≤ B) :
    pushCuts c i ≤ B + i := by
  induction i with
  | zero => simpa [pushCuts] using h 0 le_rfl
  | succ i ih =>
    rw [pushCuts]
    have h1 := ih fun j hj => h j (by omega)
    have h2 := h (i + 1) le_rfl
    split <;> push_cast <;> omega

/-- C10: whenever the initial cut table leaves room for the push-up
pass (each `max(1, bin)` entry at most `FFT_SIZE/2 − bar_count`, which
holds for every supported configuration since boundary frequencies are
at most 18 kHz, i.e. bin 1672, and `bar_count ≤ 144`), every bar `b`
satisfies `1 ≤ lo[b] ≤ hi[b] ≤ FFT_SIZE/2 − 1`, the bin count
`hi[b] − lo[b] + 1` is positive (the zero branch of the `count > 0`
guard is unreachable), and every access `mag[k]` with
`k ∈ [lo[b], hi[b]]` is inside `[0, FFT_SIZE/2)`. -/
theorem bin_bounds_safe (f : ℕ → ℤ) (N b : ℕ)
    (hbound : ∀ j, j ≤ N → loCutInit f j + (N : ℤ) ≤ (FFT_SIZE : ℤ) / 2)
    (hb : b < N) :
    1 ≤ binLo f b ∧ binLo f b ≤ binHi f b ∧
      binHi f b ≤ (FFT_SIZE : ℤ) / 2 - 1 ∧
      0 < binHi f b - binLo f b + 1 ∧
      ∀ k : ℤ, binLo f b ≤ k → k ≤ binHi f b → 0 ≤ k ∧ k < (FFT_SIZE : ℤ) / 2 := by
  have hF : (FFT_SIZE : ℤ) / 2 = 2048 := by norm_num [FFT_SIZE]
  have h1 : 1 ≤ binLo f b := pushCuts_ge_one f b
  have hloB : binLo f b ≤ (FFT_SIZE : ℤ) / 2 - 1 := by
    have hp := pushCuts_le_add (loCutInit f) ((FFT_SIZE : ℤ) / 2 - N) b
      fun j hj => by have := hbound j (by omega); omega
    have hbN : (b : ℤ) < (N : ℤ) := by exact_mod_cast hb
    simp only [binLo]
    omega
  have hlohi : binLo f b ≤ binHi f b := by
    apply le_min
    · exact le_max_left _ _
    · omega
  have hhi : binHi f b ≤ (FFT_SIZE : ℤ) / 2 - 1 := min_le_right _ _
  refine ⟨h1, hlohi, hhi, by omega, ?_⟩
  intro k hk1 hk2
  constructor
  · omega
  · omega

/-- Witness for `bin_bounds_safe` at a constant table with 144 bars. -/
theorem bin_bounds_safe_witness :
    1 ≤ binLo (fun _ => 1) 0 ∧ binLo (fun _ => 1) 0 ≤ binHi (fun _ => 1) 0 ∧
      (0 : ℤ) ≤ 1 ∧ (1 : ℤ) < (FFT_SIZE : ℤ) / 2 :=
  ⟨(bin_bounds_safe (fun _ => 1) 144 0 (fun j _ => by simp [loCutInit, FFT_SIZE]) (by decide)).1,
    (bin_bounds_safe (fun _ => 1) 144 0 (fun j _ => by simp [loCutInit, FFT_SIZE]) (by decide)).2.1,
    (bin_bounds_safe (fun _ => 1) 144 0 (fun j _ => by simp [loCutInit, FFT_SIZE]) (by decide)).2.2.2.2 1
      (by decide) (by decide)⟩

end ClearVis
